import Mathlib

/-!
Verification of the interaction-dispatch core of `matter-rs`
(`src/matter/src/data_model/core.rs`).

The dispatcher `DataModel::handle` (and its structurally parallel async
variant `DataModel::handle_async`) receives a decoded `Interaction`,
builds an `Accessor` from the transaction's session, opens a TLV writer
on the packet's write buffer, selects the `Node` traversal matching the
interaction kind, routes every yielded item through an encoder
(`AttrDataEncoder::handle_read`, `AttrDataEncoder::handle_write`,
`CmdDataEncoder::handle`), stops a read-family loop at the first
"buffer exhausted, resume from this path" signal, and finally asks the
request to `complete` the exchange.

The external collaborators (`Node`, the encoders, the `complete`
methods, `Accessor::for_session`, `SubscribeResp::to_tlv`) live outside
the verified source file; they are embedded here as an environment of
abstract functions (`Env`), exactly the interfaces the dispatcher
consumes. The dispatcher itself is translated line by line from the
source.  In addition to the values the Rust function returns, the
embedding produces a trace of the external calls the dispatcher makes
(encoder invocations, the subscription-id allocation, the `complete`
call), so that statements such as "the handler is never called" or
"complete is never called on an error path" become expressible.
-/

namespace DataModelCore

/-- A model item yielded by a `Node` traversal (an attribute or command slot). -/
abbrev Item := Nat

/-- A concrete attribute path, used as the resume cursor. In this model an
item is identified with its path. -/
abbrev Path := Nat

/-- Error values (`Error` in the source). -/
abbrev Err := Nat

/-- Handler state (the `T : Handler` the `DataModel` owns). -/
abbrev H := Nat

/-- Bytes written so far through the TLV writer into the response buffer. -/
abbrev TW := List Nat

/-- Transaction state: the session identity (used by `Accessor::for_session`)
plus opaque mutable data. -/
structure TransSt where
  session : Nat
  data : Nat
deriving DecidableEq, Repr

/-- The response packet. `writebuf_err = some e` means `tx.get_writebuf()`
fails with error `e`; `none` means it succeeds. -/
structure Packet where
  writebuf_err : Option Err
deriving DecidableEq, Repr

/-- Request payload of `Interaction::Read`. -/
structure ReadReq where
  id : Nat
deriving DecidableEq, Repr

/-- Request payload of `Interaction::Write`. -/
structure WriteReq where
  id : Nat
deriving DecidableEq, Repr

/-- Request payload of `Interaction::Invoke`. -/
structure InvokeReq where
  id : Nat
deriving DecidableEq, Repr

/-- Request payload of `Interaction::Subscribe`. -/
structure SubscribeReq where
  id : Nat
deriving DecidableEq, Repr

/-- Request payload of `Interaction::Timed`. -/
structure TimedReq where
  id : Nat
deriving DecidableEq, Repr

/-- Request payload of `Interaction::ResumeRead`; carries the resume cursor
consumed by `Node::resume_read`. -/
structure ResumeReadReq where
  id : Nat
  resume_path : Option Path
deriving DecidableEq, Repr

/-- Request payload of `Interaction::ResumeSubscribe`; the dispatcher
branches on `resume_path.is_some()`. -/
structure ResumeSubscribeReq where
  id : Nat
  resume_path : Option Path
deriving DecidableEq, Repr

/-- The `Interaction` enum from `interaction_model::core`. -/
inductive Interaction where
  | Read (req : ReadReq)
  | Write (req : WriteReq)
  | Invoke (req : InvokeReq)
  | Subscribe (req : SubscribeReq)
  | Timed (req : TimedReq)
  | ResumeRead (req : ResumeReadReq)
  | ResumeSubscribe (req : ResumeSubscribeReq)
deriving DecidableEq, Repr

/-- Observable events: the external calls the dispatcher makes.
`EncRead i` / `EncWrite i` / `EncCmd i` record an encoder call on item `i`
(each encoder call is exactly one `Handler` interaction for that item);
`Alloc id` records `SUBS_ID.fetch_add(1)` returning `id`; `CompleteR r`
records a read-family `req.complete(tx, transaction, r)`; `CompleteW` and
`CompleteI` record the resume-path-free `req.complete(tx, transaction)` of
Write and Invoke. -/
inductive Event where
  | EncRead (i : Item)
  | EncWrite (i : Item)
  | EncCmd (i : Item)
  | Alloc (id : Nat)
  | CompleteR (resume : Option Path)
  | CompleteW
  | CompleteI
deriving DecidableEq, Repr

/-- The `Node` traversal interface: one method per interaction kind, each
producing the finite ordered sequence of model items matching the request
under the given accessor (external collaborator, interface only). -/
structure Node where
  read : ReadReq → Nat → List Item
  write : WriteReq → Nat → List Item
  invoke : InvokeReq → Nat → List Item
  subscribing_read : SubscribeReq → Nat → List Item
  resume_read : ResumeReadReq → Nat → List Item
  resume_subscribing_read : ResumeSubscribeReq → Nat → List Item

/-- The environment of external collaborators the dispatcher consumes:
the ACL manager handle, `Accessor::for_session`, the `Node` traversals,
the per-item encoders (blocking and async variants, mirroring
`Handler` / `AsyncHandler`), `SubscribeResp::to_tlv`, and the per-request
`complete` methods.  Each function is the shallow embedding of the
corresponding external interface described in the spec. -/
structure Env where
  acl_mgr : Nat
  for_session : Nat → Nat → Nat
  node : Node
  enc_handle_read : Item → H → TW → Except Err (TW × Option Path)
  enc_handle_write : Item → H → TW → Except Err (H × TW)
  cmd_handle : Item → H → TransSt → TW → Except Err (H × TransSt × TW)
  enc_handle_read_a : Item → H → TW → Except Err (TW × Option Path)
  enc_handle_write_a : Item → H → TW → Except Err (H × TW)
  cmd_handle_a : Item → H → TransSt → TW → Except Err (H × TransSt × TW)
  subscribe_resp_tlv : Nat → Nat → TW → Except Err TW
  complete_read : ReadReq → TW → TransSt → Option Path → Except Err (Bool × TransSt)
  complete_write : WriteReq → TW → TransSt → Except Err (Bool × TransSt)
  complete_invoke : InvokeReq → TW → TransSt → Except Err (Bool × TransSt)
  complete_subscribe : SubscribeReq → TW → TransSt → Option Path → Except Err (Bool × TransSt)
  complete_resume_read : ResumeReadReq → TW → TransSt → Option Path → Except Err (Bool × TransSt)
  complete_resume_subscribe : ResumeSubscribeReq → TW → TransSt → Option Path → Except Err (Bool × TransSt)

/-- The mutable state a dispatch call starts from: the handler, the
transaction, and the value of the process-wide `SUBS_ID` counter. -/
structure St where
  handler : H
  trans : TransSt
  subs_id : Nat
deriving DecidableEq, Repr

/-- What a successful dispatch returns and leaves behind: the `Ok(bool)`
result of `complete`, the bytes written to the response buffer, and the
final handler, transaction and `SUBS_ID` states. -/
structure Out where
  completed : Bool
  tw : TW
  handler : H
  trans : TransSt
  subs_id : Nat
deriving DecidableEq, Repr

/-- The initial value of the `SUBS_ID` static (`AtomicU32::new(1)`). -/
def SUBS_ID_INIT : Nat := 1

/-- One `SUBS_ID.fetch_add(1, Ordering::SeqCst)` step on the 32-bit
counter: returns the previous value and the incremented (wrapping) store. -/
def subs_fetch_add (c : Nat) : Nat × Nat :=
  (c, (c + 1) % 2 ^ 32)

/-- The read-family `for` loop of `DataModel::handle`: run the encoder on
each item in order; `Ok(Some(path))` records the resume path and breaks,
`Ok(None)` continues, `Err` aborts.  Also returns the trace of encoder
calls made. -/
def read_loop (enc : Item → TW → Except Err (TW × Option Path)) :
    List Item → TW → Except Err (TW × Option Path) × List Event
  | [], tw => (.ok (tw, none), [])
  | i :: rest, tw =>
    match enc i tw with
    | .error e => (.error e, [.EncRead i])
    | .ok (tw2, some path) => (.ok (tw2, some path), [.EncRead i])
    | .ok (tw2, none) =>
      ((read_loop enc rest tw2).1, .EncRead i :: (read_loop enc rest tw2).2)

/-- The `for` loop of the Write branch: every yielded item goes through
`AttrDataEncoder::handle_write`; an `Err` aborts, there is no resume
mechanism. -/
def write_loop (enc : Item → H → TW → Except Err (H × TW)) :
    List Item → H → TW → Except Err (H × TW) × List Event
  | [], h, tw => (.ok (h, tw), [])
  | i :: rest, h, tw =>
    match enc i h tw with
    | .error e => (.error e, [.EncWrite i])
    | .ok (h2, tw2) =>
      ((write_loop enc rest h2 tw2).1, .EncWrite i :: (write_loop enc rest h2 tw2).2)

/-- The `for` loop of the Invoke branch: every yielded item goes through
`CmdDataEncoder::handle`, which may mutate the handler and the
transaction; an `Err` aborts, there is no resume mechanism. -/
def invoke_loop (enc : Item → H → TransSt → TW → Except Err (H × TransSt × TW)) :
    List Item → H → TransSt → TW → Except Err (H × TransSt × TW) × List Event
  | [], h, t, tw => (.ok (h, t, tw), [])
  | i :: rest, h, t, tw =>
    match enc i h t tw with
    | .error e => (.error e, [.EncCmd i])
    | .ok (h2, t2, tw2) =>
      ((invoke_loop enc rest h2 t2 tw2).1, .EncCmd i :: (invoke_loop enc rest h2 t2 tw2).2)

/-- The accessor `handle` builds (`Accessor::for_session(transaction.session(), self.acl_mgr)`). -/
def acc (env : Env) (s : St) : Nat :=
  env.for_session s.trans.session env.acl_mgr

/-- The curried blocking read encoder exactly as the read-family loops of
`handle` invoke it: `AttrDataEncoder::handle_read(item, &self.handler, &mut tw)`. -/
def encR (env : Env) (s : St) : Item → TW → Except Err (TW × Option Path) :=
  fun i tw => env.enc_handle_read i s.handler tw

/-- The curried suspending read encoder exactly as the read-family loops
of `handle_async` invoke it: `AttrDataEncoder::handle_read_async`. -/
def encRA (env : Env) (s : St) : Item → TW → Except Err (TW × Option Path) :=
  fun i tw => env.enc_handle_read_a i s.handler tw

/-- Shallow embedding of `DataModel::handle` (the blocking dispatcher,
`core.rs` lines 53-141): build the accessor, open the TLV writer on the
packet's write buffer (propagating its error), dispatch on the
interaction kind, and call the request's `complete`.  Returns the Rust
result together with the trace of external calls made. -/
def handle (env : Env) (inter : Interaction) (tx : Packet) (s : St) :
    Except Err Out × List Event :=
  let accessor := acc env s
  match tx.writebuf_err with
  | some e => (.error e, [])
  | none =>
    match inter with
    | .Read req =>
      let res := read_loop (encR env s)
        (env.node.read req accessor) []
      match res.1 with
      | .error e => (.error e, res.2)
      | .ok (tw, resume) =>
        match env.complete_read req tw s.trans resume with
        | .error e => (.error e, res.2 ++ [.CompleteR resume])
        | .ok (c, tr) =>
          (.ok ⟨c, tw, s.handler, tr, s.subs_id⟩, res.2 ++ [.CompleteR resume])
    | .Write req =>
      let res := write_loop env.enc_handle_write
        (env.node.write req accessor) s.handler []
      match res.1 with
      | .error e => (.error e, res.2)
      | .ok (h2, tw) =>
        match env.complete_write req tw s.trans with
        | .error e => (.error e, res.2 ++ [.CompleteW])
        | .ok (c, tr) =>
          (.ok ⟨c, tw, h2, tr, s.subs_id⟩, res.2 ++ [.CompleteW])
    | .Invoke req =>
      let res := invoke_loop env.cmd_handle
        (env.node.invoke req accessor) s.handler s.trans []
      match res.1 with
      | .error e => (.error e, res.2)
      | .ok (h2, t2, tw) =>
        match env.complete_invoke req tw t2 with
        | .error e => (.error e, res.2 ++ [.CompleteI])
        | .ok (c, t3) =>
          (.ok ⟨c, tw, h2, t3, s.subs_id⟩, res.2 ++ [.CompleteI])
    | .Subscribe req =>
      let res := read_loop (encR env s)
        (env.node.subscribing_read req accessor) []
      match res.1 with
      | .error e => (.error e, res.2)
      | .ok (tw, resume) =>
        match env.complete_subscribe req tw s.trans resume with
        | .error e => (.error e, res.2 ++ [.CompleteR resume])
        | .ok (c, tr) =>
          (.ok ⟨c, tw, s.handler, tr, s.subs_id⟩, res.2 ++ [.CompleteR resume])
    | .Timed _ =>
      (.ok ⟨false, [], s.handler, s.trans, s.subs_id⟩, [])
    | .ResumeRead req =>
      let res := read_loop (encR env s)
        (env.node.resume_read req accessor) []
      match res.1 with
      | .error e => (.error e, res.2)
      | .ok (tw, resume) =>
        match env.complete_resume_read req tw s.trans resume with
        | .error e => (.error e, res.2 ++ [.CompleteR resume])
        | .ok (c, tr) =>
          (.ok ⟨c, tw, s.handler, tr, s.subs_id⟩, res.2 ++ [.CompleteR resume])
    | .ResumeSubscribe req =>
      match req.resume_path with
      | some _ =>
        let res := read_loop (encR env s)
          (env.node.resume_subscribing_read req accessor) []
        match res.1 with
        | .error e => (.error e, res.2)
        | .ok (tw, resume) =>
          match env.complete_resume_subscribe req tw s.trans resume with
          | .error e => (.error e, res.2 ++ [.CompleteR resume])
          | .ok (c, tr) =>
            (.ok ⟨c, tw, s.handler, tr, s.subs_id⟩, res.2 ++ [.CompleteR resume])
      | none =>
        let idc := subs_fetch_add s.subs_id
        match env.subscribe_resp_tlv idc.1 40 [] with
        | .error e => (.error e, [.Alloc idc.1])
        | .ok tw =>
          match env.complete_resume_subscribe req tw s.trans none with
          | .error e => (.error e, [.Alloc idc.1, .CompleteR none])
          | .ok (c, tr) =>
            (.ok ⟨c, tw, s.handler, tr, idc.2⟩, [.Alloc idc.1, .CompleteR none])

/-- Shallow embedding of `DataModel::handle_async` (`core.rs` lines
143-236): the hand-duplicated suspending dispatcher, identical to
`handle` except that every per-item encoder call goes through the
`AsyncHandler` entry points (`handle_read_async`, `handle_write_async`,
`CmdDataEncoder::handle_async`). -/
def handle_async (env : Env) (inter : Interaction) (tx : Packet) (s : St) :
    Except Err Out × List Event :=
  let accessor := acc env s
  match tx.writebuf_err with
  | some e => (.error e, [])
  | none =>
    match inter with
    | .Read req =>
      let res := read_loop (encRA env s)
        (env.node.read req accessor) []
      match res.1 with
      | .error e => (.error e, res.2)
      | .ok (tw, resume) =>
        match env.complete_read req tw s.trans resume with
        | .error e => (.error e, res.2 ++ [.CompleteR resume])
        | .ok (c, tr) =>
          (.ok ⟨c, tw, s.handler, tr, s.subs_id⟩, res.2 ++ [.CompleteR resume])
    | .Write req =>
      let res := write_loop env.enc_handle_write_a
        (env.node.write req accessor) s.handler []
      match res.1 with
      | .error e => (.error e, res.2)
      | .ok (h2, tw) =>
        match env.complete_write req tw s.trans with
        | .error e => (.error e, res.2 ++ [.CompleteW])
        | .ok (c, tr) =>
          (.ok ⟨c, tw, h2, tr, s.subs_id⟩, res.2 ++ [.CompleteW])
    | .Invoke req =>
      let res := invoke_loop env.cmd_handle_a
        (env.node.invoke req accessor) s.handler s.trans []
      match res.1 with
      | .error e => (.error e, res.2)
      | .ok (h2, t2, tw) =>
        match env.complete_invoke req tw t2 with
        | .error e => (.error e, res.2 ++ [.CompleteI])
        | .ok (c, t3) =>
          (.ok ⟨c, tw, h2, t3, s.subs_id⟩, res.2 ++ [.CompleteI])
    | .Subscribe req =>
      let res := read_loop (encRA env s)
        (env.node.subscribing_read req accessor) []
      match res.1 with
      | .error e => (.error e, res.2)
      | .ok (tw, resume) =>
        match env.complete_subscribe req tw s.trans resume with
        | .error e => (.error e, res.2 ++ [.CompleteR resume])
        | .ok (c, tr) =>
          (.ok ⟨c, tw, s.handler, tr, s.subs_id⟩, res.2 ++ [.CompleteR resume])
    | .Timed _ =>
      (.ok ⟨false, [], s.handler, s.trans, s.subs_id⟩, [])
    | .ResumeRead req =>
      let res := read_loop (encRA env s)
        (env.node.resume_read req accessor) []
      match res.1 with
      | .error e => (.error e, res.2)
      | .ok (tw, resume) =>
        match env.complete_resume_read req tw s.trans resume with
        | .error e => (.error e, res.2 ++ [.CompleteR resume])
        | .ok (c, tr) =>
          (.ok ⟨c, tw, s.handler, tr, s.subs_id⟩, res.2 ++ [.CompleteR resume])
    | .ResumeSubscribe req =>
      match req.resume_path with
      | some _ =>
        let res := read_loop (encRA env s)
          (env.node.resume_subscribing_read req accessor) []
        match res.1 with
        | .error e => (.error e, res.2)
        | .ok (tw, resume) =>
          match env.complete_resume_subscribe req tw s.trans resume with
          | .error e => (.error e, res.2 ++ [.CompleteR resume])
          | .ok (c, tr) =>
            (.ok ⟨c, tw, s.handler, tr, s.subs_id⟩, res.2 ++ [.CompleteR resume])
      | none =>
        let idc := subs_fetch_add s.subs_id
        match env.subscribe_resp_tlv idc.1 40 [] with
        | .error e => (.error e, [.Alloc idc.1])
        | .ok tw =>
          match env.complete_resume_subscribe req tw s.trans none with
          | .error e => (.error e, [.Alloc idc.1, .CompleteR none])
          | .ok (c, tr) =>
            (.ok ⟨c, tw, s.handler, tr, idc.2⟩, [.Alloc idc.1, .CompleteR none])

/-- The traversal `handle` selects for a read-family interaction (Read,
Subscribe, ResumeRead, ResumeSubscribe with a resume path); `none` for the
other kinds. -/
def read_family_items (env : Env) (inter : Interaction) (a : Nat) : Option (List Item) :=
  match inter with
  | .Read req => some (env.node.read req a)
  | .Subscribe req => some (env.node.subscribing_read req a)
  | .ResumeRead req => some (env.node.resume_read req a)
  | .ResumeSubscribe req =>
    match req.resume_path with
    | some _ => some (env.node.resume_subscribing_read req a)
    | none => none
  | _ => none

/-- The `complete` method `handle` calls for a read-family interaction. -/
def read_family_complete (env : Env) (inter : Interaction) :
    Option (TW → TransSt → Option Path → Except Err (Bool × TransSt)) :=
  match inter with
  | .Read req => some (env.complete_read req)
  | .Subscribe req => some (env.complete_subscribe req)
  | .ResumeRead req => some (env.complete_resume_read req)
  | .ResumeSubscribe req =>
    match req.resume_path with
    | some _ => some (env.complete_resume_subscribe req)
    | none => none
  | _ => none

/-- The traversal `handle` selects for any interaction that runs one
(read-family, Write, Invoke); `none` for Timed and for ResumeSubscribe
without a resume path, which run no traversal. -/
def trav_items (env : Env) (inter : Interaction) (a : Nat) : Option (List Item) :=
  match inter with
  | .Read req => some (env.node.read req a)
  | .Write req => some (env.node.write req a)
  | .Invoke req => some (env.node.invoke req a)
  | .Subscribe req => some (env.node.subscribing_read req a)
  | .ResumeRead req => some (env.node.resume_read req a)
  | .ResumeSubscribe req =>
    match req.resume_path with
    | some _ => some (env.node.resume_subscribing_read req a)
    | none => none
  | .Timed _ => none

/-- If the read loop runs a prefix to completion without an exhaustion
signal, on the extended list it continues into the suffix from the
prefix's final buffer, prepending the prefix's trace. -/
theorem read_loop_append_none (enc : Item → TW → Except Err (TW × Option Path))
    (xs ys : List Item) (tw tw2 : TW) (evs : List Event)
    (h : read_loop enc xs tw = (.ok (tw2, none), evs)) :
    read_loop enc (xs ++ ys) tw =
      ((read_loop enc ys tw2).1, evs ++ (read_loop enc ys tw2).2) := by
  induction xs generalizing tw evs with
  | nil =>
    simp only [read_loop, Prod.mk.injEq, Except.ok.injEq] at h
    obtain ⟨⟨h1, -⟩, h2⟩ := h
    subst h1; subst h2
    simp
  | cons i rest ih =>
    simp only [read_loop] at h
    cases he : enc i tw with
    | error e => simp [he] at h
    | ok v =>
      obtain ⟨tw3, op⟩ := v
      cases op with
      | some p => simp [he] at h
      | none =>
        simp only [he] at h
        cases hq : read_loop enc rest tw3 with
        | mk r evs3 =>
          simp only [hq, Prod.mk.injEq] at h
          obtain ⟨h1, h2⟩ := h
          subst h2
          have := ih tw3 evs3 (by rw [hq, h1])
          simp [read_loop, he, this]

/-- If the read loop stops inside a prefix with an exhaustion signal, the
suffix is never visited: the loop on the extended list returns the same
result and the same trace. -/
theorem read_loop_append_some (enc : Item → TW → Except Err (TW × Option Path))
    (xs ys : List Item) (tw tw2 : TW) (p : Path) (evs : List Event)
    (h : read_loop enc xs tw = (.ok (tw2, some p), evs)) :
    read_loop enc (xs ++ ys) tw = (.ok (tw2, some p), evs) := by
  induction xs generalizing tw evs with
  | nil => simp [read_loop] at h
  | cons i rest ih =>
    simp only [read_loop] at h
    cases he : enc i tw with
    | error e => simp [he] at h
    | ok v =>
      obtain ⟨tw3, op⟩ := v
      cases op with
      | some q =>
        simp only [he, Prod.mk.injEq, Except.ok.injEq, Option.some.injEq] at h
        obtain ⟨⟨h1, h2⟩, h3⟩ := h
        subst h1; subst h2; subst h3
        simp [read_loop, he]
      | none =>
        simp only [he] at h
        cases hq : read_loop enc rest tw3 with
        | mk r evs3 =>
          simp only [hq, Prod.mk.injEq] at h
          obtain ⟨h1, h2⟩ := h
          subst h2
          have := ih tw3 evs3 (by rw [hq, h1])
          simp [read_loop, he, this]

/-- If the read loop fails inside a prefix, the suffix is never visited:
the loop on the extended list fails the same way with the same trace. -/
theorem read_loop_append_error (enc : Item → TW → Except Err (TW × Option Path))
    (xs ys : List Item) (tw : TW) (e : Err) (evs : List Event)
    (h : read_loop enc xs tw = (.error e, evs)) :
    read_loop enc (xs ++ ys) tw = (.error e, evs) := by
  induction xs generalizing tw evs with
  | nil => simp [read_loop] at h
  | cons i rest ih =>
    simp only [read_loop] at h
    cases he : enc i tw with
    | error e2 =>
      simp only [he, Prod.mk.injEq, Except.error.injEq] at h
      obtain ⟨h1, h2⟩ := h
      subst h1; subst h2
      simp [read_loop, he]
    | ok v =>
      obtain ⟨tw3, op⟩ := v
      cases op with
      | some q => simp [he] at h
      | none =>
        simp only [he] at h
        cases hq : read_loop enc rest tw3 with
        | mk r evs3 =>
          simp only [hq, Prod.mk.injEq] at h
          obtain ⟨h1, h2⟩ := h
          subst h2
          have := ih tw3 evs3 (by rw [hq, h1])
          simp [read_loop, he, this]

/-- If the read loop finishes with no exhaustion signal, it has called the
encoder on every item, in traversal order. -/
theorem read_loop_events_of_none (enc : Item → TW → Except Err (TW × Option Path))
    (items : List Item) (tw tw2 : TW)
    (h : (read_loop enc items tw).1 = .ok (tw2, none)) :
    (read_loop enc items tw).2 = items.map .EncRead := by
  induction items generalizing tw with
  | nil => simp [read_loop]
  | cons i rest ih =>
    simp only [read_loop] at h ⊢
    cases he : enc i tw with
    | error e => simp [he] at h
    | ok v =>
      obtain ⟨tw3, op⟩ := v
      cases op with
      | some p => simp [he] at h
      | none =>
        simp only [he] at h ⊢
        simpa using ih tw3 h

/-- If the Write loop runs a prefix successfully, on the extended list it
continues into the suffix with the prefix's final handler and buffer. -/
theorem write_loop_append_ok (enc : Item → H → TW → Except Err (H × TW))
    (xs ys : List Item) (h0 h2 : H) (tw tw2 : TW) (evs : List Event)
    (h : write_loop enc xs h0 tw = (.ok (h2, tw2), evs)) :
    write_loop enc (xs ++ ys) h0 tw =
      ((write_loop enc ys h2 tw2).1, evs ++ (write_loop enc ys h2 tw2).2) := by
  induction xs generalizing h0 tw evs with
  | nil =>
    simp only [write_loop, Prod.mk.injEq, Except.ok.injEq] at h
    obtain ⟨⟨h1, h1'⟩, h2'⟩ := h
    subst h1; subst h1'; subst h2'
    simp
  | cons i rest ih =>
    simp only [write_loop] at h
    cases he : enc i h0 tw with
    | error e => simp [he] at h
    | ok v =>
      obtain ⟨h3, tw3⟩ := v
      simp only [he] at h
      cases hq : write_loop enc rest h3 tw3 with
      | mk r evs3 =>
        simp only [hq, Prod.mk.injEq] at h
        obtain ⟨h1, h2'⟩ := h
        subst h2'
        have := ih h3 tw3 evs3 (by rw [hq, h1])
        simp [write_loop, he, this]

/-- If the Write loop fails inside a prefix, the suffix is never visited. -/
theorem write_loop_append_error (enc : Item → H → TW → Except Err (H × TW))
    (xs ys : List Item) (h0 : H) (tw : TW) (e : Err) (evs : List Event)
    (h : write_loop enc xs h0 tw = (.error e, evs)) :
    write_loop enc (xs ++ ys) h0 tw = (.error e, evs) := by
  induction xs generalizing h0 tw evs with
  | nil => simp [write_loop] at h
  | cons i rest ih =>
    simp only [write_loop] at h
    cases he : enc i h0 tw with
    | error e2 =>
      simp only [he, Prod.mk.injEq, Except.error.injEq] at h
      obtain ⟨h1, h2⟩ := h
      subst h1; subst h2
      simp [write_loop, he]
    | ok v =>
      obtain ⟨h3, tw3⟩ := v
      simp only [he] at h
      cases hq : write_loop enc rest h3 tw3 with
      | mk r evs3 =>
        simp only [hq, Prod.mk.injEq] at h
        obtain ⟨h1, h2⟩ := h
        subst h2
        have := ih h3 tw3 evs3 (by rw [hq, h1])
        simp [write_loop, he, this]

/-- If the Write loop succeeds, it has called the write encoder on every
item, in traversal order. -/
theorem write_loop_events_of_ok (enc : Item → H → TW → Except Err (H × TW))
    (items : List Item) (h0 : H) (tw : TW) (v : H × TW)
    (h : (write_loop enc items h0 tw).1 = .ok v) :
    (write_loop enc items h0 tw).2 = items.map .EncWrite := by
  induction items generalizing h0 tw v with
  | nil => simp [write_loop]
  | cons i rest ih =>
    simp only [write_loop] at h ⊢
    cases he : enc i h0 tw with
    | error e => simp [he] at h
    | ok v2 =>
      obtain ⟨h2, tw2⟩ := v2
      simp only [he] at h ⊢
      simpa using ih h2 tw2 v h

/-- If the Invoke loop fails inside a prefix, the suffix is never visited. -/
theorem invoke_loop_append_error (enc : Item → H → TransSt → TW → Except Err (H × TransSt × TW))
    (xs ys : List Item) (h0 : H) (t0 : TransSt) (tw : TW) (e : Err) (evs : List Event)
    (h : invoke_loop enc xs h0 t0 tw = (.error e, evs)) :
    invoke_loop enc (xs ++ ys) h0 t0 tw = (.error e, evs) := by
  induction xs generalizing h0 t0 tw evs with
  | nil => simp [invoke_loop] at h
  | cons i rest ih =>
    simp only [invoke_loop] at h
    cases he : enc i h0 t0 tw with
    | error e2 =>
      simp only [he, Prod.mk.injEq, Except.error.injEq] at h
      obtain ⟨h1, h2⟩ := h
      subst h1; subst h2
      simp [invoke_loop, he]
    | ok v =>
      obtain ⟨h3, t3, tw3⟩ := v
      simp only [he] at h
      cases hq : invoke_loop enc rest h3 t3 tw3 with
      | mk r evs3 =>
        simp only [hq, Prod.mk.injEq] at h
        obtain ⟨h1, h2⟩ := h
        subst h2
        have := ih h3 t3 tw3 evs3 (by rw [hq, h1])
        simp [invoke_loop, he, this]

/-- If the Invoke loop succeeds on a prefix, on the extended list it
continues into the suffix from the prefix's final state. -/
theorem invoke_loop_append_ok (enc : Item → H → TransSt → TW → Except Err (H × TransSt × TW))
    (xs ys : List Item) (h0 h2 : H) (t0 t2 : TransSt) (tw tw2 : TW) (evs : List Event)
    (h : invoke_loop enc xs h0 t0 tw = (.ok (h2, t2, tw2), evs)) :
    invoke_loop enc (xs ++ ys) h0 t0 tw =
      ((invoke_loop enc ys h2 t2 tw2).1, evs ++ (invoke_loop enc ys h2 t2 tw2).2) := by
  induction xs generalizing h0 t0 tw evs with
  | nil =>
    simp only [invoke_loop, Prod.mk.injEq, Except.ok.injEq] at h
    obtain ⟨⟨h1, h1', h1''⟩, h2'⟩ := h
    subst h1; subst h1'; subst h1''; subst h2'
    simp
  | cons i rest ih =>
    simp only [invoke_loop] at h
    cases he : enc i h0 t0 tw with
    | error e => simp [he] at h
    | ok v =>
      obtain ⟨h3, t3, tw3⟩ := v
      simp only [he] at h
      cases hq : invoke_loop enc rest h3 t3 tw3 with
      | mk r evs3 =>
        simp only [hq, Prod.mk.injEq] at h
        obtain ⟨h1, h2'⟩ := h
        subst h2'
        have := ih h3 t3 tw3 evs3 (by rw [hq, h1])
        simp [invoke_loop, he, this]

/-- If the Invoke loop succeeds, it has called the command encoder on
every item, in traversal order. -/
theorem invoke_loop_events_of_ok (enc : Item → H → TransSt → TW → Except Err (H × TransSt × TW))
    (items : List Item) (h0 : H) (t0 : TransSt) (tw : TW) (v : H × TransSt × TW)
    (h : (invoke_loop enc items h0 t0 tw).1 = .ok v) :
    (invoke_loop enc items h0 t0 tw).2 = items.map .EncCmd := by
  induction items generalizing h0 t0 tw v with
  | nil => simp [invoke_loop]
  | cons i rest ih =>
    simp only [invoke_loop] at h ⊢
    cases he : enc i h0 t0 tw with
    | error e => simp [he] at h
    | ok v2 =>
      obtain ⟨h2, t2, tw2⟩ := v2
      simp only [he] at h ⊢
      simpa using ih h2 t2 tw2 v h

/-- Structural lemma: on a read-family interaction whose loop fails, the
dispatcher returns that error with exactly the loop's trace (no
`complete` call). -/
theorem handle_rf_error (env : Env) (inter : Interaction) (s : St)
    (items : List Item) (e : Err) (evs : List Event)
    (hI : read_family_items env inter (acc env s) = some items)
    (hloop : read_loop (encR env s) items [] = (.error e, evs)) :
    handle env inter ⟨none⟩ s = (.error e, evs) := by
  cases inter with
  | Read req =>
    simp only [read_family_items, Option.some.injEq] at hI
    subst hI
    simp [handle, hloop]
  | Subscribe req =>
    simp only [read_family_items, Option.some.injEq] at hI
    subst hI
    simp [handle, hloop]
  | ResumeRead req =>
    simp only [read_family_items, Option.some.injEq] at hI
    subst hI
    simp [handle, hloop]
  | ResumeSubscribe req =>
    cases hp : req.resume_path with
    | none => simp [read_family_items, hp] at hI
    | some p =>
      simp only [read_family_items, hp, Option.some.injEq] at hI
      subst hI
      simp [handle, hp, hloop]
  | Write req => simp [read_family_items] at hI
  | Invoke req => simp [read_family_items] at hI
  | Timed req => simp [read_family_items] at hI

/-- Structural lemma: on a read-family interaction whose loop succeeds
with resume signal `resume`, the dispatcher calls the request's
`complete` with `resume`; if `complete` succeeds, the dispatcher returns
its boolean, the loop's buffer, and the trace "encoder calls, then the
`complete` call". -/
theorem handle_rf_ok (env : Env) (inter : Interaction) (s : St)
    (items : List Item) (tw : TW) (resume : Option Path) (evs : List Event)
    (compl : TW → TransSt → Option Path → Except Err (Bool × TransSt))
    (c : Bool) (tr : TransSt)
    (hI : read_family_items env inter (acc env s) = some items)
    (hC : read_family_complete env inter = some compl)
    (hloop : read_loop (encR env s) items [] = (.ok (tw, resume), evs))
    (hcompl : compl tw s.trans resume = .ok (c, tr)) :
    handle env inter ⟨none⟩ s =
      (.ok ⟨c, tw, s.handler, tr, s.subs_id⟩, evs ++ [.CompleteR resume]) := by
  cases inter with
  | Read req =>
    simp only [read_family_items, Option.some.injEq] at hI
    simp only [read_family_complete, Option.some.injEq] at hC
    subst hI; subst hC
    simp [handle, hloop, hcompl]
  | Subscribe req =>
    simp only [read_family_items, Option.some.injEq] at hI
    simp only [read_family_complete, Option.some.injEq] at hC
    subst hI; subst hC
    simp [handle, hloop, hcompl]
  | ResumeRead req =>
    simp only [read_family_items, Option.some.injEq] at hI
    simp only [read_family_complete, Option.some.injEq] at hC
    subst hI; subst hC
    simp [handle, hloop, hcompl]
  | ResumeSubscribe req =>
    cases hp : req.resume_path with
    | none => simp [read_family_items, hp] at hI
    | some p =>
      simp only [read_family_items, hp, Option.some.injEq] at hI
      simp only [read_family_complete, hp, Option.some.injEq] at hC
      subst hI; subst hC
      simp [handle, hp, hloop, hcompl]
  | Write req => simp [read_family_items] at hI
  | Invoke req => simp [read_family_items] at hI
  | Timed req => simp [read_family_items] at hI

/-- Structural lemma: on a read-family interaction whose loop succeeds
but whose `complete` call fails, the dispatcher returns `complete`'s
error; the trace shows the `complete` call was made with the loop's
resume signal. -/
theorem handle_rf_complete_error (env : Env) (inter : Interaction) (s : St)
    (items : List Item) (tw : TW) (resume : Option Path) (evs : List Event)
    (compl : TW → TransSt → Option Path → Except Err (Bool × TransSt)) (e : Err)
    (hI : read_family_items env inter (acc env s) = some items)
    (hC : read_family_complete env inter = some compl)
    (hloop : read_loop (encR env s) items [] = (.ok (tw, resume), evs))
    (hcompl : compl tw s.trans resume = .error e) :
    handle env inter ⟨none⟩ s = (.error e, evs ++ [.CompleteR resume]) := by
  cases inter with
  | Read req =>
    simp only [read_family_items, Option.some.injEq] at hI
    simp only [read_family_complete, Option.some.injEq] at hC
    subst hI; subst hC
    simp [handle, hloop, hcompl]
  | Subscribe req =>
    simp only [read_family_items, Option.some.injEq] at hI
    simp only [read_family_complete, Option.some.injEq] at hC
    subst hI; subst hC
    simp [handle, hloop, hcompl]
  | ResumeRead req =>
    simp only [read_family_items, Option.some.injEq] at hI
    simp only [read_family_complete, Option.some.injEq] at hC
    subst hI; subst hC
    simp [handle, hloop, hcompl]
  | ResumeSubscribe req =>
    cases hp : req.resume_path with
    | none => simp [read_family_items, hp] at hI
    | some p =>
      simp only [read_family_items, hp, Option.some.injEq] at hI
      simp only [read_family_complete, hp, Option.some.injEq] at hC
      subst hI; subst hC
      simp [handle, hp, hloop, hcompl]
  | Write req => simp [read_family_items] at hI
  | Invoke req => simp [read_family_items] at hI
  | Timed req => simp [read_family_items] at hI

/-- A sample `Node` whose traversals yield no items (used by concrete
instantiations below). -/
def node0 : Node :=
  { read := fun _ _ => [], write := fun _ _ => [], invoke := fun _ _ => [],
    subscribing_read := fun _ _ => [], resume_read := fun _ _ => [],
    resume_subscribing_read := fun _ _ => [] }

/-- A sample environment in which every external call succeeds: encoders
append the item to the buffer, `SubscribeResp::to_tlv` appends the id and
interval, `complete` reports "fully answered" exactly when no resume path
is passed.  The async encoder entry points behave identically to the
blocking ones. -/
def env0 : Env :=
  { acl_mgr := 0, for_session := fun _ _ => 0, node := node0,
    enc_handle_read := fun i _ tw => .ok (tw ++ [i], none),
    enc_handle_write := fun i h tw => .ok (h, tw ++ [i]),
    cmd_handle := fun i h t tw => .ok (h, t, tw ++ [i]),
    enc_handle_read_a := fun i _ tw => .ok (tw ++ [i], none),
    enc_handle_write_a := fun i h tw => .ok (h, tw ++ [i]),
    cmd_handle_a := fun i h t tw => .ok (h, t, tw ++ [i]),
    subscribe_resp_tlv := fun id iv tw => .ok (tw ++ [id, iv]),
    complete_read := fun _ _ t r => .ok (r.isNone, t),
    complete_write := fun _ _ t => .ok (true, t),
    complete_invoke := fun _ _ t => .ok (true, t),
    complete_subscribe := fun _ _ t r => .ok (r.isNone, t),
    complete_resume_read := fun _ _ t r => .ok (r.isNone, t),
    complete_resume_subscribe := fun _ _ t r => .ok (r.isNone, t) }

/-- A sample initial state: handler 0, session 0, `SUBS_ID` at its initial
value. -/
def st0 : St := ⟨0, ⟨0, 0⟩, SUBS_ID_INIT⟩

/-- C10: `handle` obtains the packet's write buffer before dispatching on
the interaction kind, so if `tx.get_writebuf()` fails, `handle` returns
that error for every interaction kind — including `Timed`, which is
therefore not an unconditional no-op — without calling any encoder, the
allocator, or `complete`. -/
theorem C10_writebuf_failure_every_kind (env : Env) (inter : Interaction) (s : St) (e : Err) :
    handle env inter ⟨some e⟩ s = (.error e, []) := rfl

/-- C8 counterexample: a Timed interaction is not unconditionally a no-op
returning Ok(false): with a packet whose write buffer cannot be obtained,
`handle` returns the error instead. -/
theorem C8_counterexample :
    (handle env0 (.Timed ⟨0⟩) ⟨some 7⟩ st0).1 = .error 7 ∧
    (handle env0 (.Timed ⟨0⟩) ⟨some 7⟩ st0).1 ≠
      .ok ⟨false, [], st0.handler, st0.trans, st0.subs_id⟩ := by
  constructor
  · rfl
  · rw [show (handle env0 (.Timed ⟨0⟩) ⟨some 7⟩ st0).1 = Except.error 7 from rfl]
    exact fun h => Except.noConfusion h

/-- C8 (amended): provided obtaining the packet's write buffer succeeds,
a Timed interaction is a no-op returning Ok(false): no byte is written to
the response buffer, no external call is made (in particular the
request's `complete` is never called), and the handler, transaction and
allocator states are unchanged. -/
theorem C8_timed_noop (env : Env) (req : TimedReq) (s : St) :
    handle env (.Timed req) ⟨none⟩ s =
      (.ok ⟨false, [], s.handler, s.trans, s.subs_id⟩, []) := rfl

/-- C5: a ResumeSubscribe interaction whose request carries no resume path
reads no model items — its behaviour is a function of only
`SubscribeResp::to_tlv` and the request's `complete`, the trace shows no
encoder call — and it allocates exactly one subscription id (the current
`SUBS_ID` value, advancing the counter by one) and writes the single
subscription-established element carrying that id and the fixed interval
parameter 40 into the empty buffer before completing the exchange. -/
theorem C5_resume_subscribe_fresh (env : Env) (req : ResumeSubscribeReq) (s : St)
    (hp : req.resume_path = none) :
    handle env (.ResumeSubscribe req) ⟨none⟩ s =
      (match env.subscribe_resp_tlv s.subs_id 40 [] with
       | .error e => (.error e, [.Alloc s.subs_id])
       | .ok tw =>
         match env.complete_resume_subscribe req tw s.trans none with
         | .error e => (.error e, [.Alloc s.subs_id, .CompleteR none])
         | .ok (c, tr) =>
           (.ok ⟨c, tw, s.handler, tr, (s.subs_id + 1) % 2 ^ 32⟩,
             [.Alloc s.subs_id, .CompleteR none])) := by
  simp only [handle, hp, subs_fetch_add]

/-- C5 witness: the theorem applied to the concrete sample environment and
a fresh ResumeSubscribe request. -/
theorem C5_witness :
    (⟨0, none⟩ : ResumeSubscribeReq).resume_path = none ∧
    handle env0 (.ResumeSubscribe ⟨0, none⟩) ⟨none⟩ st0 =
      (match env0.subscribe_resp_tlv st0.subs_id 40 [] with
       | .error e => (.error e, [.Alloc st0.subs_id])
       | .ok tw =>
         match env0.complete_resume_subscribe ⟨0, none⟩ tw st0.trans none with
         | .error e => (.error e, [.Alloc st0.subs_id, .CompleteR none])
         | .ok (c, tr) =>
           (.ok ⟨c, tw, st0.handler, tr, (st0.subs_id + 1) % 2 ^ 32⟩,
             [.Alloc st0.subs_id, .CompleteR none])) :=
  ⟨rfl, C5_resume_subscribe_fresh env0 ⟨0, none⟩ st0 rfl⟩

/-- The ids returned by `n` successive `SUBS_ID.fetch_add(1)` allocations
starting from counter value `c`, together with the final counter value. -/
def alloc_n : Nat → Nat → List Nat × Nat
  | 0, c => ([], c)
  | n + 1, c =>
    ((subs_fetch_add c).1 :: (alloc_n n (subs_fetch_add c).2).1,
      (alloc_n n (subs_fetch_add c).2).2)

/-- C6: the subscription-id allocator is the shared counter `SUBS_ID`
initialized to 1 and bumped by `fetch_add` on each allocation, so absent
32-bit wraparound `n` successive allocations starting from counter value
`k` return exactly the increasing sequence `k, k+1, ..., k+n-1` — `n`
distinct values, none returned twice. -/
theorem C6_allocator_injective_monotone (n k : Nat) (hw : k + n ≤ 2 ^ 32) :
    SUBS_ID_INIT = 1 ∧
    (alloc_n n k).1 = List.range' k n ∧
    (alloc_n n k).1.Nodup := by
  have heq : ∀ m j, j + m ≤ 2 ^ 32 → (alloc_n m j).1 = List.range' j m := by
    intro m
    induction m with
    | zero => intro j _; simp [alloc_n]
    | succ m ih =>
      intro j hj
      simp only [alloc_n, subs_fetch_add]
      by_cases hk : j + 1 < 2 ^ 32
      · rw [Nat.mod_eq_of_lt hk]
        rw [ih (j + 1) (by omega)]
        simp [List.range']
      · have hm : m = 0 := by omega
        subst hm
        simp [alloc_n, List.range']
  refine ⟨rfl, heq n k hw, ?_⟩
  rw [heq n k hw]
  exact List.nodup_range' k n

/-- C6 witness: three allocations from the initial counter value return
1, 2, 3. -/
theorem C6_witness :
    SUBS_ID_INIT + 3 ≤ 2 ^ 32 ∧
    (SUBS_ID_INIT = 1 ∧
      (alloc_n 3 SUBS_ID_INIT).1 = List.range' SUBS_ID_INIT 3 ∧
      (alloc_n 3 SUBS_ID_INIT).1.Nodup) :=
  ⟨by decide, C6_allocator_injective_monotone 3 SUBS_ID_INIT (by decide)⟩

/-- C2: given async encoder entry points that behave identically to the
blocking ones (the same per-item results for the same calls), the
suspending dispatcher `handle_async` visits the same items in the same
order, makes the same external calls, writes byte-identical buffer
content, and returns the same result as the blocking `handle`, for every
interaction, packet and state. -/
theorem C2_async_equals_blocking (env : Env) (inter : Interaction) (tx : Packet) (s : St)
    (h1 : env.enc_handle_read_a = env.enc_handle_read)
    (h2 : env.enc_handle_write_a = env.enc_handle_write)
    (h3 : env.cmd_handle_a = env.cmd_handle) :
    handle_async env inter tx s = handle env inter tx s := by
  have hR : encRA env s = encR env s := by
    funext i tw
    simp [encR, encRA, h1]
  cases inter <;> simp [handle, handle_async, hR, h2, h3]

/-- C2 witness: the theorem applied to the concrete sample environment,
whose async encoders are definitionally the blocking ones. -/
theorem C2_witness :
    handle_async env0 (.Read ⟨0⟩) ⟨none⟩ st0 = handle env0 (.Read ⟨0⟩) ⟨none⟩ st0 :=
  C2_async_equals_blocking env0 (.Read ⟨0⟩) ⟨none⟩ st0 rfl rfl rfl

/-- C3: Write and Invoke dispatch processes every item yielded by the
traversal exactly once: on success the trace is exactly one encoder call
per item, in traversal order, followed by the resume-path-free
`complete`; and when an item's encoder fails (the shape a buffer
overflow takes on these paths), the dispatcher surfaces that hard error
as its own result — there is no resume mechanism and no `complete`
call. -/
theorem C3_write_invoke_consume_all (env : Env) (s : St) (wreq : WriteReq)
    (ireq : InvokeReq) (o o2 : Out) (evs evs2 evsw evsi : List Event) (e e2 : Err) :
    (handle env (.Write wreq) ⟨none⟩ s = (.ok o, evs) →
      evs = (env.node.write wreq (acc env s)).map .EncWrite ++ [.CompleteW]) ∧
    (handle env (.Invoke ireq) ⟨none⟩ s = (.ok o2, evs2) →
      evs2 = (env.node.invoke ireq (acc env s)).map .EncCmd ++ [.CompleteI]) ∧
    (write_loop env.enc_handle_write (env.node.write wreq (acc env s)) s.handler [] =
        (.error e, evsw) →
      handle env (.Write wreq) ⟨none⟩ s = (.error e, evsw)) ∧
    (invoke_loop env.cmd_handle (env.node.invoke ireq (acc env s)) s.handler s.trans [] =
        (.error e2, evsi) →
      handle env (.Invoke ireq) ⟨none⟩ s = (.error e2, evsi)) := by
  refine ⟨?_, ?_, ?_, ?_⟩
  · intro h
    simp only [handle] at h
    cases hq : write_loop env.enc_handle_write (env.node.write wreq (acc env s))
        s.handler [] with
    | mk r evsl =>
      rw [hq] at h
      cases r with
      | error e3 => simp at h
      | ok v =>
        obtain ⟨h2, tw⟩ := v
        simp only [] at h
        cases hc : env.complete_write wreq tw s.trans with
        | error e3 => rw [hc] at h; simp at h
        | ok ct =>
          obtain ⟨c, tr⟩ := ct
          rw [hc] at h
          simp only [Prod.mk.injEq, Except.ok.injEq] at h
          have hev : evsl = (env.node.write wreq (acc env s)).map .EncWrite := by
            have := write_loop_events_of_ok env.enc_handle_write
              (env.node.write wreq (acc env s)) s.handler [] (h2, tw) (by rw [hq])
            rw [hq] at this
            exact this.symm ▸ rfl
          rw [← h.2, hev]
  · intro h
    simp only [handle] at h
    cases hq : invoke_loop env.cmd_handle (env.node.invoke ireq (acc env s))
        s.handler s.trans [] with
    | mk r evsl =>
      rw [hq] at h
      cases r with
      | error e3 => simp at h
      | ok v =>
        obtain ⟨h2, t2, tw⟩ := v
        simp only [] at h
        cases hc : env.complete_invoke ireq tw t2 with
        | error e3 => rw [hc] at h; simp at h
        | ok ct =>
          obtain ⟨c, t3⟩ := ct
          rw [hc] at h
          simp only [Prod.mk.injEq, Except.ok.injEq] at h
          have hev : evsl = (env.node.invoke ireq (acc env s)).map .EncCmd := by
            have := invoke_loop_events_of_ok env.cmd_handle
              (env.node.invoke ireq (acc env s)) s.handler s.trans [] (h2, t2, tw)
              (by rw [hq])
            rw [hq] at this
            exact this.symm ▸ rfl
          rw [← h.2, hev]
  · intro h
    simp [handle, h]
  · intro h
    simp [handle, h]

/-- C9: an interaction whose selected traversal yields zero items
completes with no resume path and writes no element: on success the
response buffer is empty, the handler and allocator states are
unchanged, and the trace holds exactly one event — the resume-path-free
completion call. -/
theorem C9_empty_traversal (env : Env) (inter : Interaction) (s : St)
    (o : Out) (evs : List Event)
    (hT : trav_items env inter (acc env s) = some [])
    (h : handle env inter ⟨none⟩ s = (.ok o, evs)) :
    o.tw = [] ∧ o.handler = s.handler ∧ o.subs_id = s.subs_id ∧
    (evs = [.CompleteR none] ∨ evs = [.CompleteW] ∨ evs = [.CompleteI]) := by
  cases inter with
  | Read req =>
    simp only [trav_items, Option.some.injEq] at hT
    simp only [handle, hT, read_loop] at h
    cases hc : env.complete_read req [] s.trans none with
    | error e => rw [hc] at h; simp at h
    | ok ct =>
      obtain ⟨c, tr⟩ := ct
      rw [hc] at h
      simp only [Prod.mk.injEq, Except.ok.injEq, List.nil_append] at h
      rw [← h.1, ← h.2]
      exact ⟨rfl, rfl, rfl, Or.inl rfl⟩
  | Write req =>
    simp only [trav_items, Option.some.injEq] at hT
    simp only [handle, hT, write_loop] at h
    cases hc : env.complete_write req [] s.trans with
    | error e => rw [hc] at h; simp at h
    | ok ct =>
      obtain ⟨c, tr⟩ := ct
      rw [hc] at h
      simp only [Prod.mk.injEq, Except.ok.injEq, List.nil_append] at h
      rw [← h.1, ← h.2]
      exact ⟨rfl, rfl, rfl, Or.inr (Or.inl rfl)⟩
  | Invoke req =>
    simp only [trav_items, Option.some.injEq] at hT
    simp only [handle, hT, invoke_loop] at h
    cases hc : env.complete_invoke req [] s.trans with
    | error e => rw [hc] at h; simp at h
    | ok ct =>
      obtain ⟨c, tr⟩ := ct
      rw [hc] at h
      simp only [Prod.mk.injEq, Except.ok.injEq, List.nil_append] at h
      rw [← h.1, ← h.2]
      exact ⟨rfl, rfl, rfl, Or.inr (Or.inr rfl)⟩
  | Subscribe req =>
    simp only [trav_items, Option.some.injEq] at hT
    simp only [handle, hT, read_loop] at h
    cases hc : env.complete_subscribe req [] s.trans none with
    | error e => rw [hc] at h; simp at h
    | ok ct =>
      obtain ⟨c, tr⟩ := ct
      rw [hc] at h
      simp only [Prod.mk.injEq, Except.ok.injEq, List.nil_append] at h
      rw [← h.1, ← h.2]
      exact ⟨rfl, rfl, rfl, Or.inl rfl⟩
  | Timed req => simp [trav_items] at hT
  | ResumeRead req =>
    simp only [trav_items, Option.some.injEq] at hT
    simp only [handle, hT, read_loop] at h
    cases hc : env.complete_resume_read req [] s.trans none with
    | error e => rw [hc] at h; simp at h
    | ok ct =>
      obtain ⟨c, tr⟩ := ct
      rw [hc] at h
      simp only [Prod.mk.injEq, Except.ok.injEq, List.nil_append] at h
      rw [← h.1, ← h.2]
      exact ⟨rfl, rfl, rfl, Or.inl rfl⟩
  | ResumeSubscribe req =>
    cases hp : req.resume_path with
    | none => simp [trav_items, hp] at hT
    | some p =>
      simp only [trav_items, hp, Option.some.injEq] at hT
      simp only [handle, hp, hT, read_loop] at h
      cases hc : env.complete_resume_subscribe req [] s.trans none with
      | error e => rw [hc] at h; simp at h
      | ok ct =>
        obtain ⟨c, tr⟩ := ct
        rw [hc] at h
        simp only [Prod.mk.injEq, Except.ok.injEq, List.nil_append] at h
        rw [← h.1, ← h.2]
        exact ⟨rfl, rfl, rfl, Or.inl rfl⟩

/-- C7: any failure that is not the buffer-exhaustion signal aborts the
dispatch immediately: if opening the write buffer fails, or an item's
encoder call returns a hard error after a cleanly encoded prefix, the
dispatcher returns that error, the items after the failing one are never
processed, and the request's `complete` is never called — the trace
holds only the encoder calls actually made. -/
theorem C7_errors_abort_dispatch (env : Env) (s : St) (inter inter2 : Interaction)
    (items pre rest wpre wrest ipre irest : List Item) (i wi ii : Item)
    (tw1 tww twi : TW) (e e2 e3 e4 : Err) (h1 hi1 : H) (ti1 : TransSt)
    (wreq : WriteReq) (ireq : InvokeReq) :
    (handle env inter2 ⟨some e⟩ s = (.error e, [])) ∧
    (read_family_items env inter (acc env s) = some items →
      items = pre ++ i :: rest →
      read_loop (encR env s) pre [] = (.ok (tw1, none), pre.map .EncRead) →
      encR env s i tw1 = .error e2 →
      handle env inter ⟨none⟩ s = (.error e2, (pre ++ [i]).map .EncRead)) ∧
    (env.node.write wreq (acc env s) = wpre ++ wi :: wrest →
      write_loop env.enc_handle_write wpre s.handler [] =
        (.ok (h1, tww), wpre.map .EncWrite) →
      env.enc_handle_write wi h1 tww = .error e3 →
      handle env (.Write wreq) ⟨none⟩ s = (.error e3, (wpre ++ [wi]).map .EncWrite)) ∧
    (env.node.invoke ireq (acc env s) = ipre ++ ii :: irest →
      invoke_loop env.cmd_handle ipre s.handler s.trans [] =
        (.ok (hi1, ti1, twi), ipre.map .EncCmd) →
      env.cmd_handle ii hi1 ti1 twi = .error e4 →
      handle env (.Invoke ireq) ⟨none⟩ s = (.error e4, (ipre ++ [ii]).map .EncCmd)) := by
  refine ⟨rfl, ?_, ?_, ?_⟩
  · intro hI hsplit hpre henc
    have hfull : read_loop (encR env s) items [] =
        (.error e2, (pre ++ [i]).map .EncRead) := by
      rw [hsplit,
        read_loop_append_none (encR env s) pre (i :: rest) [] tw1 (pre.map .EncRead) hpre]
      simp [read_loop, henc]
    exact handle_rf_error env inter s items e2 ((pre ++ [i]).map .EncRead) hI hfull
  · intro hsplit hpre henc
    have hfull : write_loop env.enc_handle_write (env.node.write wreq (acc env s))
        s.handler [] = (.error e3, (wpre ++ [wi]).map .EncWrite) := by
      rw [hsplit,
        write_loop_append_ok env.enc_handle_write wpre (wi :: wrest) s.handler h1 [] tww
          (wpre.map .EncWrite) hpre]
      simp [write_loop, henc]
    simp [handle, hfull]
  · intro hsplit hpre henc
    have hfull : invoke_loop env.cmd_handle (env.node.invoke ireq (acc env s))
        s.handler s.trans [] = (.error e4, (ipre ++ [ii]).map .EncCmd) := by
      rw [hsplit,
        invoke_loop_append_ok env.cmd_handle ipre (ii :: irest) s.handler hi1 s.trans ti1 []
          twi (ipre.map .EncCmd) hpre]
      simp [invoke_loop, henc]
    simp [handle, hfull]

/-- C4: a read-family iteration stops at the first item whose encoding
signals buffer exhaustion: when a prefix encodes cleanly and the next
item's encoder returns a resume path, that path is recorded and passed
to the request's `complete`, and no item after it is processed in this
dispatch (the result is independent of the remaining items and the trace
ends at the signalling item's call, then the `complete` call); when no
item signals exhaustion, `complete` is called with no resume path. -/
theorem C4_stop_at_first_exhaustion (env : Env) (s : St) (inter : Interaction)
    (items pre rest : List Item) (i : Item) (tw1 tw2 : TW) (p : Path)
    (compl : TW → TransSt → Option Path → Except Err (Bool × TransSt))
    (hI : read_family_items env inter (acc env s) = some items)
    (hC : read_family_complete env inter = some compl) :
    (items = pre ++ i :: rest →
      read_loop (encR env s) pre [] = (.ok (tw1, none), pre.map .EncRead) →
      encR env s i tw1 = .ok (tw2, some p) →
      handle env inter ⟨none⟩ s =
        (match compl tw2 s.trans (some p) with
         | .error e => (.error e, (pre ++ [i]).map .EncRead ++ [.CompleteR (some p)])
         | .ok (c, tr) =>
           (.ok ⟨c, tw2, s.handler, tr, s.subs_id⟩,
             (pre ++ [i]).map .EncRead ++ [.CompleteR (some p)]))) ∧
    (read_loop (encR env s) items [] = (.ok (tw1, none), items.map .EncRead) →
      handle env inter ⟨none⟩ s =
        (match compl tw1 s.trans none with
         | .error e => (.error e, items.map .EncRead ++ [.CompleteR none])
         | .ok (c, tr) =>
           (.ok ⟨c, tw1, s.handler, tr, s.subs_id⟩,
             items.map .EncRead ++ [.CompleteR none]))) := by
  constructor
  · intro hsplit hpre henc
    have hfull : read_loop (encR env s) items [] =
        (.ok (tw2, some p), (pre ++ [i]).map .EncRead) := by
      rw [hsplit,
        read_loop_append_none (encR env s) pre (i :: rest) [] tw1 (pre.map .EncRead) hpre]
      simp [read_loop, henc]
    cases hc : compl tw2 s.trans (some p) with
    | error e =>
      exact handle_rf_complete_error env inter s items tw2 (some p)
        ((pre ++ [i]).map .EncRead) compl e hI hC hfull hc
    | ok ct =>
      obtain ⟨c, tr⟩ := ct
      exact handle_rf_ok env inter s items tw2 (some p) ((pre ++ [i]).map .EncRead)
        compl c tr hI hC hfull hc
  · intro hloop
    cases hc : compl tw1 s.trans none with
    | error e =>
      exact handle_rf_complete_error env inter s items tw1 none
        (items.map .EncRead) compl e hI hC hloop hc
    | ok ct =>
      obtain ⟨c, tr⟩ := ct
      exact handle_rf_ok env inter s items tw1 none (items.map .EncRead)
        compl c tr hI hC hloop hc

/-- A sample `Node` with nonempty traversals: the read traversal holds an
item (7) the sample read encoder cannot fit, and the subscribe, write and
invoke traversals hold an item (9) whose encoding fails hard. -/
def node2 : Node :=
  { read := fun _ _ => [1, 7, 2], write := fun _ _ => [4, 9, 5],
    invoke := fun _ _ => [6, 9, 5], subscribing_read := fun _ _ => [1, 9, 2],
    resume_read := fun _ _ => [], resume_subscribing_read := fun _ _ => [] }

/-- A sample environment whose read encoder signals buffer exhaustion on
item 7 and fails hard on item 9, and whose write/command encoders fail
hard on item 9. -/
def env2 : Env :=
  { env0 with
    node := node2,
    enc_handle_read := fun i _ tw =>
      if i = 9 then .error 5 else if i = 7 then .ok (tw, some 7)
      else .ok (tw ++ [i], none),
    enc_handle_write := fun i h tw =>
      if i = 9 then .error 6 else .ok (h, tw ++ [i]),
    cmd_handle := fun i h t tw =>
      if i = 9 then .error 7 else .ok (h, t, tw ++ [i]) }

/-- A sample `Node` whose traversals always succeed under the sample
encoders of `env0`. -/
def node3 : Node :=
  { read := fun _ _ => [10, 11], write := fun _ _ => [4, 5],
    invoke := fun _ _ => [6], subscribing_read := fun _ _ => [],
    resume_read := fun _ _ => [], resume_subscribing_read := fun _ _ => [] }

/-- The always-succeeding sample environment over `node3`. -/
def env3 : Env := { env0 with node := node3 }

/-- C3 witness: the theorem applied to concrete environments — a Write
and an Invoke that consume every yielded item, and a Write and an Invoke
aborted by a hard encoder error on their second item. -/
theorem C3_witness :
    ([Event.EncWrite 4, Event.EncWrite 5, Event.CompleteW] =
      (env3.node.write ⟨0⟩ (acc env3 st0)).map Event.EncWrite ++ [Event.CompleteW]) ∧
    ([Event.EncCmd 6, Event.CompleteI] =
      (env3.node.invoke ⟨0⟩ (acc env3 st0)).map Event.EncCmd ++ [Event.CompleteI]) ∧
    handle env2 (.Write ⟨0⟩) ⟨none⟩ st0 =
      (.error 6, [Event.EncWrite 4, Event.EncWrite 9]) ∧
    handle env2 (.Invoke ⟨0⟩) ⟨none⟩ st0 =
      (.error 7, [Event.EncCmd 6, Event.EncCmd 9]) :=
  ⟨(C3_write_invoke_consume_all env3 st0 ⟨0⟩ ⟨0⟩ ⟨true, [4, 5], 0, ⟨0, 0⟩, 1⟩
      ⟨true, [6], 0, ⟨0, 0⟩, 1⟩ [.EncWrite 4, .EncWrite 5, .CompleteW]
      [.EncCmd 6, .CompleteI] [] [] 0 0).1 rfl,
    (C3_write_invoke_consume_all env3 st0 ⟨0⟩ ⟨0⟩ ⟨true, [4, 5], 0, ⟨0, 0⟩, 1⟩
      ⟨true, [6], 0, ⟨0, 0⟩, 1⟩ [.EncWrite 4, .EncWrite 5, .CompleteW]
      [.EncCmd 6, .CompleteI] [] [] 0 0).2.1 rfl,
    (C3_write_invoke_consume_all env2 st0 ⟨0⟩ ⟨0⟩ ⟨true, [], 0, ⟨0, 0⟩, 1⟩
      ⟨true, [], 0, ⟨0, 0⟩, 1⟩ [] [] [.EncWrite 4, .EncWrite 9]
      [.EncCmd 6, .EncCmd 9] 6 7).2.2.1 rfl,
    (C3_write_invoke_consume_all env2 st0 ⟨0⟩ ⟨0⟩ ⟨true, [], 0, ⟨0, 0⟩, 1⟩
      ⟨true, [], 0, ⟨0, 0⟩, 1⟩ [] [] [.EncWrite 4, .EncWrite 9]
      [.EncCmd 6, .EncCmd 9] 6 7).2.2.2 rfl⟩

/-- C9 witness: the theorem applied to the sample environment with empty
traversals and a Read interaction. -/
theorem C9_witness :
    (⟨true, [], 0, ⟨0, 0⟩, 1⟩ : Out).tw = [] ∧
    (⟨true, [], 0, ⟨0, 0⟩, 1⟩ : Out).handler = st0.handler ∧
    (⟨true, [], 0, ⟨0, 0⟩, 1⟩ : Out).subs_id = st0.subs_id ∧
    ([Event.CompleteR none] = [Event.CompleteR none] ∨
      [Event.CompleteR none] = [Event.CompleteW] ∨
      [Event.CompleteR none] = [Event.CompleteI]) :=
  C9_empty_traversal env0 (.Read ⟨0⟩) st0 ⟨true, [], 0, ⟨0, 0⟩, 1⟩
    [.CompleteR none] rfl rfl

/-- C7 witness: the theorem applied to concrete inputs — a failing write
buffer on a Timed interaction, and hard encoder errors on the second item
of a Subscribe, a Write and an Invoke, each aborting with no `complete`
call and the later items unprocessed. -/
theorem C7_witness :
    handle env2 (.Timed ⟨0⟩) ⟨some 3⟩ st0 = (.error 3, []) ∧
    handle env2 (.Subscribe ⟨0⟩) ⟨none⟩ st0 =
      (.error 5, [Event.EncRead 1, Event.EncRead 9]) ∧
    handle env2 (.Write ⟨0⟩) ⟨none⟩ st0 =
      (.error 6, [Event.EncWrite 4, Event.EncWrite 9]) ∧
    handle env2 (.Invoke ⟨0⟩) ⟨none⟩ st0 =
      (.error 7, [Event.EncCmd 6, Event.EncCmd 9]) :=
  ⟨(C7_errors_abort_dispatch env2 st0 (.Subscribe ⟨0⟩) (.Timed ⟨0⟩) [1, 9, 2] [1] [2]
      [4] [5] [6] [5] 9 9 9 [1] [4] [6] 3 5 6 7 0 0 ⟨0, 0⟩ ⟨0⟩ ⟨0⟩).1,
    (C7_errors_abort_dispatch env2 st0 (.Subscribe ⟨0⟩) (.Timed ⟨0⟩) [1, 9, 2] [1] [2]
      [4] [5] [6] [5] 9 9 9 [1] [4] [6] 3 5 6 7 0 0 ⟨0, 0⟩ ⟨0⟩ ⟨0⟩).2.1 rfl rfl rfl rfl,
    (C7_errors_abort_dispatch env2 st0 (.Subscribe ⟨0⟩) (.Timed ⟨0⟩) [1, 9, 2] [1] [2]
      [4] [5] [6] [5] 9 9 9 [1] [4] [6] 3 5 6 7 0 0 ⟨0, 0⟩ ⟨0⟩ ⟨0⟩).2.2.1 rfl rfl rfl,
    (C7_errors_abort_dispatch env2 st0 (.Subscribe ⟨0⟩) (.Timed ⟨0⟩) [1, 9, 2] [1] [2]
      [4] [5] [6] [5] 9 9 9 [1] [4] [6] 3 5 6 7 0 0 ⟨0, 0⟩ ⟨0⟩ ⟨0⟩).2.2.2 rfl rfl rfl⟩

/-- C4 witness: the theorem applied to concrete inputs — a Read over
three items where the second signals exhaustion (the third is never
processed, the `complete` call carries the resume path), and a Read where
no item signals exhaustion (the `complete` call carries no path). -/
theorem C4_witness :
    handle env2 (.Read ⟨0⟩) ⟨none⟩ st0 =
      (.ok ⟨false, [1], st0.handler, st0.trans, st0.subs_id⟩,
        [Event.EncRead 1, Event.EncRead 7, Event.CompleteR (some 7)]) ∧
    handle env3 (.Read ⟨0⟩) ⟨none⟩ st0 =
      (.ok ⟨true, [10, 11], st0.handler, st0.trans, st0.subs_id⟩,
        [Event.EncRead 10, Event.EncRead 11, Event.CompleteR none]) :=
  ⟨(C4_stop_at_first_exhaustion env2 st0 (.Read ⟨0⟩) [1, 7, 2] [1] [2] 7 [1] [1] 7
      (env2.complete_read ⟨0⟩) rfl rfl).1 rfl rfl rfl,
    (C4_stop_at_first_exhaustion env3 st0 (.Read ⟨0⟩) [10, 11] [] [] 0 [10, 11] [] 0
      (env3.complete_read ⟨0⟩) rfl rfl).2 rfl⟩

/-- Modelled from the spec: the per-item behaviour of the attribute read
encoder `AttrDataEncoder::handle_read`, whose code lies outside the file
under verification.  Spec 4.2: attempt to write the TLV element for the
item; if the writer reports insufficient space, leave the buffer in its
valid previous state (no partially-written element) and signal "stop,
resume from this item's path" instead of an error.  `enc i` is the
item's encoded element, `cap` the buffer capacity. -/
def spec_handle_read (enc : Item → List Nat) (cap : Nat) (i : Item) (tw : TW) :
    Except Err (TW × Option Path) :=
  if tw.length + (enc i).length ≤ cap then .ok (tw ++ enc i, none)
  else .ok (tw, some i)

/-- Modelled from the spec: traversal resumption, whose code (`Node`)
lies outside the file under verification.  Spec 4.1: a resumed traversal
"behaves exactly like Read but the traversal starts from the stored
resume path rather than the beginning": it yields the suffix of the
model's item sequence beginning at the item whose path equals the
resume path. -/
def spec_resume_from (p : Path) (items : List Item) : List Item :=
  items.dropWhile (fun i => i != p)

/-- Modelled from the spec: an environment instantiating the external
collaborators for the chunking analysis — the device model holds the
fixed item sequence `allItems`, fresh read traversals yield all of it,
resumed traversals resume from the request's stored path, the read
encoder is `spec_handle_read` over capacity `cap`, and `complete`
reports "fully answered" exactly when no resume path was recorded. -/
def spec_env (enc : Item → List Nat) (cap : Nat) (allItems : List Item) : Env :=
  { env0 with
    node :=
      { read := fun _ _ => allItems,
        write := fun _ _ => [],
        invoke := fun _ _ => [],
        subscribing_read := fun _ _ => allItems,
        resume_read := fun req _ =>
          match req.resume_path with
          | some p => spec_resume_from p allItems
          | none => allItems,
        resume_subscribing_read := fun req _ =>
          match req.resume_path with
          | some p => spec_resume_from p allItems
          | none => allItems },
    enc_handle_read := fun i _ tw => spec_handle_read enc cap i tw,
    enc_handle_read_a := fun i _ tw => spec_handle_read enc cap i tw }

/-- The two read-family conversation kinds: a Read conversation is
resumed with ResumeRead requests, a Subscribe conversation with
ResumeSubscribe requests carrying a resume path. -/
inductive ConvKind where
  | read
  | subscribe
deriving DecidableEq, Repr

/-- The interaction one exchange of a conversation dispatches: the fresh
kind (Read or Subscribe) when no resume path is pending, otherwise the
matching resumed kind (ResumeRead or ResumeSubscribe) carrying exactly
the pending path. -/
def conv_inter (k : ConvKind) (cur : Option Path) : Interaction :=
  match k, cur with
  | .read, none => .Read ⟨0⟩
  | .read, some p => .ResumeRead ⟨0, some p⟩
  | .subscribe, none => .Subscribe ⟨0⟩
  | .subscribe, some p => .ResumeSubscribe ⟨0, some p⟩

/-- One chunked read-family conversation against `spec_env`: dispatch
the conversation's fresh interaction, then, as long as the previous
exchange's `complete` call recorded a resume path, dispatch the matching
resumed interaction carrying exactly that path, collecting each
exchange's response buffer.  `fuel` bounds the number of exchanges; the
final state of each dispatch seeds the next. -/
def chunk_run (enc : Item → List Nat) (cap : Nat) (allItems : List Item) (k : ConvKind) :
    Nat → Option Path → St → Option (List TW)
  | 0, _, _ => none
  | fuel + 1, cur, s =>
    match handle (spec_env enc cap allItems) (conv_inter k cur) ⟨none⟩ s with
    | (.error _, _) => none
    | (.ok o, evs) =>
      match evs.getLast? with
      | some (.CompleteR none) => some [o.tw]
      | some (.CompleteR (some p)) =>
        match chunk_run enc cap allItems k fuel (some p) ⟨o.handler, o.trans, o.subs_id⟩ with
        | none => none
        | some rest => some (o.tw :: rest)
      | _ => none

/-- Resuming from the path of the first item after an already-traversed
prefix that does not contain that path yields exactly that suffix. -/
theorem spec_resume_from_eq (p : Path) (pre post : List Item) :
    p ∉ pre → spec_resume_from p (pre ++ p :: post) = p :: post := by
  induction pre with
  | nil =>
    intro _
    simp [spec_resume_from, List.dropWhile]
  | cons a rest ih =>
    intro hp
    have ha : (a != p) = true := by
      simp only [bne_iff_ne]
      intro h
      exact hp (by simp [h])
    have := ih (fun h => hp (List.mem_cons_of_mem a h))
    simp only [spec_resume_from, List.dropWhile] at this ⊢
    simpa [ha] using this

/-- The read loop under the spec-modelled encoder splits the traversal
into the longest prefix whose elements fit the buffer one after the
other, and the rest: the prefix's elements are appended to the buffer in
order, and if any item remains, the first one is the recorded resume
path, its element did not fit, and the loop stops at it. -/
theorem spec_read_loop_split (enc : Item → List Nat) (cap : Nat) :
    ∀ (items : List Item) (tw0 : TW),
      ∃ pre post, items = pre ++ post ∧
        (post = [] →
          read_loop (spec_handle_read enc cap) items tw0 =
            (.ok (tw0 ++ pre.flatMap enc, none), pre.map .EncRead)) ∧
        (∀ p rest2, post = p :: rest2 →
          read_loop (spec_handle_read enc cap) items tw0 =
            (.ok (tw0 ++ pre.flatMap enc, some p), (pre ++ [p]).map .EncRead) ∧
          cap < (tw0 ++ pre.flatMap enc).length + (enc p).length) := by
  intro items
  induction items with
  | nil =>
    intro tw0
    exact ⟨[], [], rfl, fun _ => by simp [read_loop], fun p rest2 h => by simp at h⟩
  | cons i rest ih =>
    intro tw0
    by_cases hfit : tw0.length + (enc i).length ≤ cap
    · obtain ⟨pre, post, hsplit, hnone, hsome⟩ := ih (tw0 ++ enc i)
      refine ⟨i :: pre, post, by simp [hsplit], ?_, ?_⟩
      · intro hpost
        have hl := hnone hpost
        simp only [read_loop, spec_handle_read, if_pos hfit, hl]
        simp [List.append_assoc]
      · intro p rest2 hpost
        obtain ⟨hl, hcap⟩ := hsome p rest2 hpost
        constructor
        · simp only [read_loop, spec_handle_read, if_pos hfit, hl]
          simp [List.append_assoc]
        · simpa [List.append_assoc] using hcap
    · refine ⟨[], i :: rest, rfl, fun h => by simp at h, ?_⟩
      intro p rest2 hpost
      injection hpost with h1 h2
      subst h1; subst h2
      constructor
      · simp [read_loop, spec_handle_read, if_neg hfit]
      · simp only [List.flatMap_nil, List.append_nil]
        omega

/-- The chunked conversation, run with enough fuel from any point whose
remaining suffix is `suf`, succeeds and its buffers concatenate to the
encodings of exactly the items of `suf`, in order. -/
theorem chunk_run_spec (enc : Item → List Nat) (cap : Nat) (allItems : List Item)
    (k : ConvKind)
    (hnd : allItems.Nodup) (hfit : ∀ i ∈ allItems, (enc i).length ≤ cap) :
    ∀ (fuel : Nat) (pre suf : List Item) (cur : Option Path) (s : St),
      allItems = pre ++ suf →
      suf.length < fuel →
      (match cur with
       | none => pre = []
       | some p => ∃ suf2, suf = p :: suf2) →
      ∃ bufs, chunk_run enc cap allItems k fuel cur s = some bufs ∧
        bufs.flatten = suf.flatMap enc := by
  intro fuel
  induction fuel with
  | zero =>
    intro pre suf cur s _ h _
    omega
  | succ fuel ih =>
    intro pre suf cur s hall hlen hcur
    have hencR : encR (spec_env enc cap allItems) s = spec_handle_read enc cap := rfl
    obtain ⟨pre2, post2, hsplit2, hnone, hsome⟩ :=
      spec_read_loop_split enc cap suf []
    cases cur with
    | none =>
      have hpre : pre = [] := hcur
      subst hpre
      have hall2 : allItems = suf := by simpa using hall
      have hitems : read_family_items (spec_env enc cap allItems) (conv_inter k none)
          (acc (spec_env enc cap allItems) s) = some suf := by
        rw [← hall2]
        cases k <;> rfl
      have hC : read_family_complete (spec_env enc cap allItems) (conv_inter k none) =
          some (fun _ t r => .ok (r.isNone, t)) := by
        cases k <;> rfl
      cases post2 with
      | nil =>
        have hl : read_loop (spec_handle_read enc cap) suf [] =
            (.ok (suf.flatMap enc, none), suf.map .EncRead) := by
          have := hnone rfl
          rw [List.append_nil] at hsplit2
          simpa [← hsplit2] using this
        have hhandle := handle_rf_ok (spec_env enc cap allItems) (conv_inter k none) s suf
          (suf.flatMap enc) none (suf.map .EncRead) (fun _ t r => .ok (r.isNone, t))
          true s.trans hitems hC (by rw [hencR]; exact hl) rfl
        refine ⟨[suf.flatMap enc], ?_, by simp⟩
        simp only [chunk_run]
        rw [hhandle]
        simp only []
        rw [List.getLast?_concat]
      | cons p2 r2 =>
        obtain ⟨hl, hcap⟩ := hsome p2 r2 rfl
        have hp2mem : p2 ∈ allItems := by
          rw [hall2, hsplit2]
          simp
        have hpre2ne : pre2 ≠ [] := by
          intro hzero
          subst hzero
          simp only [List.flatMap_nil, List.nil_append, List.length_nil] at hcap
          exact absurd (hfit p2 hp2mem) (by omega)
        have hl2 : read_loop (spec_handle_read enc cap) suf [] =
            (.ok (pre2.flatMap enc, some p2), (pre2 ++ [p2]).map .EncRead) := by
          simpa using hl
        have hhandle := handle_rf_ok (spec_env enc cap allItems) (conv_inter k none) s suf
          (pre2.flatMap enc) (some p2) ((pre2 ++ [p2]).map .EncRead)
          (fun _ t r => .ok (r.isNone, t)) false s.trans hitems hC
          (by rw [hencR]; exact hl2) rfl
        have hlen2 : (p2 :: r2).length < fuel := by
          have h1 : 0 < pre2.length := List.length_pos.mpr hpre2ne
          have h2 : suf.length = pre2.length + (p2 :: r2).length := by
            rw [hsplit2]; simp
          simp only [List.length_cons] at h2 ⊢
          omega
        obtain ⟨bufs2, hrun2, hflat2⟩ := ih pre2 (p2 :: r2) (some p2)
          ⟨s.handler, s.trans, s.subs_id⟩ (by rw [hall2, hsplit2]) hlen2 ⟨r2, rfl⟩
        refine ⟨pre2.flatMap enc :: bufs2, ?_, ?_⟩
        · simp only [chunk_run]
          rw [hhandle]
          simp only []
          rw [List.getLast?_concat]
          simp only []
          rw [hrun2]
        · simp [hflat2, hsplit2]
    | some p =>
      obtain ⟨suf2, hsuf⟩ := hcur
      subst hsuf
      have hnd2 := hall ▸ hnd
      have hp : p ∉ pre := by
        intro hmem
        exact (List.disjoint_of_nodup_append hnd2) hmem (List.mem_cons_self p suf2)
      have hitems : read_family_items (spec_env enc cap allItems) (conv_inter k (some p))
          (acc (spec_env enc cap allItems) s) = some (p :: suf2) := by
        have h0 : read_family_items (spec_env enc cap allItems) (conv_inter k (some p))
            (acc (spec_env enc cap allItems) s) = some (spec_resume_from p allItems) := by
          cases k <;> rfl
        rw [h0, hall, spec_resume_from_eq p pre suf2 hp]
      have hC : read_family_complete (spec_env enc cap allItems) (conv_inter k (some p)) =
          some (fun _ t r => .ok (r.isNone, t)) := by
        cases k <;> rfl
      cases post2 with
      | nil =>
        have hl : read_loop (spec_handle_read enc cap) (p :: suf2) [] =
            (.ok ((p :: suf2).flatMap enc, none), (p :: suf2).map .EncRead) := by
          have := hnone rfl
          rw [List.append_nil] at hsplit2
          simpa [← hsplit2] using this
        have hhandle := handle_rf_ok (spec_env enc cap allItems) (conv_inter k (some p)) s
          (p :: suf2) ((p :: suf2).flatMap enc) none ((p :: suf2).map .EncRead)
          (fun _ t r => .ok (r.isNone, t)) true s.trans hitems hC
          (by rw [hencR]; exact hl) rfl
        refine ⟨[(p :: suf2).flatMap enc], ?_, by simp⟩
        simp only [chunk_run]
        rw [hhandle]
        simp only []
        rw [List.getLast?_concat]
      | cons p2 r2 =>
        obtain ⟨hl, hcap⟩ := hsome p2 r2 rfl
        have hp2mem : p2 ∈ allItems := by
          rw [hall, hsplit2]
          simp
        have hpre2ne : pre2 ≠ [] := by
          intro hzero
          subst hzero
          simp only [List.flatMap_nil, List.nil_append, List.length_nil] at hcap
          exact absurd (hfit p2 hp2mem) (by omega)
        have hl2 : read_loop (spec_handle_read enc cap) (p :: suf2) [] =
            (.ok (pre2.flatMap enc, some p2), (pre2 ++ [p2]).map .EncRead) := by
          simpa using hl
        have hhandle := handle_rf_ok (spec_env enc cap allItems) (conv_inter k (some p)) s
          (p :: suf2) (pre2.flatMap enc) (some p2) ((pre2 ++ [p2]).map .EncRead)
          (fun _ t r => .ok (r.isNone, t)) false s.trans hitems hC
          (by rw [hencR]; exact hl2) rfl
        have hlen2 : (p2 :: r2).length < fuel := by
          have h1 : 0 < pre2.length := List.length_pos.mpr hpre2ne
          have h2 : (p :: suf2).length = pre2.length + (p2 :: r2).length := by
            rw [hsplit2]; simp
          simp only [List.length_cons] at h2 hlen ⊢
          omega
        obtain ⟨bufs2, hrun2, hflat2⟩ := ih (pre ++ pre2) (p2 :: r2) (some p2)
          ⟨s.handler, s.trans, s.subs_id⟩
          (by rw [hall, hsplit2, List.append_assoc]) hlen2 ⟨r2, rfl⟩
        refine ⟨pre2.flatMap enc :: bufs2, ?_, ?_⟩
        · simp only [chunk_run]
          rw [hhandle]
          simp only []
          rw [List.getLast?_concat]
          simp only []
          rw [hrun2]
        · simp [hflat2, hsplit2]

/-- C1: for any model item sequence (distinct paths, each item's element
fitting an empty buffer) and either read-family conversation kind — a
Read resumed by ResumeReads, or a Subscribe resumed by
ResumeSubscribes-with-path, each resumed call starting from the previous
exchange's resume path — the chunked conversation terminates within one
exchange per item, and its response buffers concatenate to exactly the
byte sequence of one dispatch of the conversation's fresh interaction
against a buffer large enough for everything (which encodes every item
once, in order, with no resume path): no element is duplicated, omitted
or reordered across the chunk boundaries. -/
theorem C1_chunked_equals_unbounded (k : ConvKind) (enc : Item → List Nat) (cap : Nat)
    (allItems : List Item) (s s2 : St)
    (hnd : allItems.Nodup) (hfit : ∀ i ∈ allItems, (enc i).length ≤ cap) :
    ∃ bufs : List TW,
      chunk_run enc cap allItems k (allItems.length + 1) none s = some bufs ∧
      handle (spec_env enc ((allItems.flatMap enc).length) allItems)
          (conv_inter k none) ⟨none⟩ s2 =
        (.ok ⟨true, allItems.flatMap enc, s2.handler, s2.trans, s2.subs_id⟩,
          allItems.map .EncRead ++ [.CompleteR none]) ∧
      bufs.flatten = allItems.flatMap enc := by
  obtain ⟨bufs, hrun, hflat⟩ := chunk_run_spec enc cap allItems k hnd hfit
    (allItems.length + 1) [] allItems none s rfl (by omega) rfl
  refine ⟨bufs, hrun, ?_, hflat⟩
  obtain ⟨pre, post, hsplit, hnone, hsome⟩ :=
    spec_read_loop_split enc ((allItems.flatMap enc).length) allItems []
  have hpost : post = [] := by
    cases post with
    | nil => rfl
    | cons p r =>
      obtain ⟨-, hcap⟩ := hsome p r rfl
      have htot : (allItems.flatMap enc).length =
          (pre.flatMap enc).length + ((enc p).length + (r.flatMap enc).length) := by
        rw [hsplit]
        simp [List.flatMap_append]
      simp only [List.nil_append] at hcap
      omega
  subst hpost
  rw [List.append_nil] at hsplit
  have hl := hnone rfl
  rw [← hsplit] at hl
  have hitems : read_family_items (spec_env enc ((allItems.flatMap enc).length) allItems)
      (conv_inter k none)
      (acc (spec_env enc ((allItems.flatMap enc).length) allItems) s2) =
      some allItems := by
    cases k <;> rfl
  have hC : read_family_complete (spec_env enc ((allItems.flatMap enc).length) allItems)
      (conv_inter k none) = some (fun _ t r => .ok (r.isNone, t)) := by
    cases k <;> rfl
  have hencR : encR (spec_env enc ((allItems.flatMap enc).length) allItems) s2 =
      spec_handle_read enc ((allItems.flatMap enc).length) := rfl
  exact handle_rf_ok (spec_env enc ((allItems.flatMap enc).length) allItems)
    (conv_inter k none) s2 allItems (allItems.flatMap enc) none (allItems.map .EncRead)
    (fun _ t r => .ok (r.isNone, t)) true s2.trans hitems hC
    (by rw [hencR]; simpa using hl) rfl

/-- A sample item encoding for the chunking witness: every item encodes
to two bytes. -/
def enc3 : Item → List Nat := fun i => [i, i]

/-- C1 witness: three two-byte items against a five-byte buffer — for
each conversation kind (Read/ResumeRead and
Subscribe/ResumeSubscribe-with-path), two chunked exchanges whose
buffers concatenate to the one unbounded dispatch's buffer. -/
theorem C1_witness :
    ([0, 1, 2] : List Item).Nodup ∧
    (∀ i ∈ ([0, 1, 2] : List Item), (enc3 i).length ≤ 5) ∧
    (∃ bufs : List TW,
      chunk_run enc3 5 [0, 1, 2] .read (([0, 1, 2] : List Item).length + 1) none st0 =
        some bufs ∧
      handle (spec_env enc3 ((([0, 1, 2] : List Item).flatMap enc3).length) [0, 1, 2])
          (conv_inter .read none) ⟨none⟩ st0 =
        (.ok ⟨true, ([0, 1, 2] : List Item).flatMap enc3, st0.handler, st0.trans, st0.subs_id⟩,
          ([0, 1, 2] : List Item).map .EncRead ++ [.CompleteR none]) ∧
      bufs.flatten = ([0, 1, 2] : List Item).flatMap enc3) ∧
    (∃ bufs : List TW,
      chunk_run enc3 5 [0, 1, 2] .subscribe (([0, 1, 2] : List Item).length + 1) none st0 =
        some bufs ∧
      handle (spec_env enc3 ((([0, 1, 2] : List Item).flatMap enc3).length) [0, 1, 2])
          (conv_inter .subscribe none) ⟨none⟩ st0 =
        (.ok ⟨true, ([0, 1, 2] : List Item).flatMap enc3, st0.handler, st0.trans, st0.subs_id⟩,
          ([0, 1, 2] : List Item).map .EncRead ++ [.CompleteR none]) ∧
      bufs.flatten = ([0, 1, 2] : List Item).flatMap enc3) :=
  ⟨by decide, by decide,
    C1_chunked_equals_unbounded .read enc3 5 [0, 1, 2] st0 st0 (by decide) (by decide),
    C1_chunked_equals_unbounded .subscribe enc3 5 [0, 1, 2] st0 st0 (by decide) (by decide)⟩

end DataModelCore
